import Mathlib

/-!
Verification development for the event correlation and ancestry-resolution
engine (`eventhandler.go`): dispatcher-level handlers for file, process and
network events, the recursive tool-chain resolver, and the private/reserved
network-range classifier.  Go strings/maps become Lean `String` and
association lists; the collaborators (collector, DNS, OS process inspection,
file system) become pure fields of an `Env` record; handler side effects
(collector reports, tamper log lines) are returned as lists.
-/

namespace Agent

/-! ## String helpers (Go `strings` / `path` semantics over char lists) -/

/-- Go `strings.HasPrefix` on char lists: first argument is the candidate
longer list, second the pattern that must occur at the front. -/
def startsWithL : List Char → List Char → Bool
  | _, [] => true
  | [], _ :: _ => false
  | a :: as, b :: bs => a = b && startsWithL as bs

/-- Go `strings.Contains` on char lists: the second list occurs
(contiguously) somewhere in the first. -/
def containsL : List Char → List Char → Bool
  | [], sub => sub.isEmpty
  | c :: rest, sub => startsWithL (c :: rest) sub || containsL rest sub

/-- Go `strings.HasPrefix s pre`. -/
def strStarts (s pre : String) : Bool := startsWithL s.data pre.data

/-- Go `strings.HasSuffix s suf`. -/
def strEnds (s suf : String) : Bool := startsWithL s.data.reverse suf.data.reverse

/-- Go `strings.Contains s sub`. -/
def strContainsSub (s sub : String) : Bool := containsL s.data sub.data

/-- Backwards scan of `path.Ext`: walks the reversed character list,
accumulating the characters seen so far; stops with `""` at a `/`, and with
the dot-prefixed extension at the first `.`. -/
def extFromRev : List Char → List Char → String
  | [], _ => ""
  | c :: rest, seen =>
    if c = '/' then ""
    else if c = '.' then String.mk (c :: seen)
    else extFromRev rest (c :: seen)

/-- Go `path.Ext`: the suffix of the last path element starting at its final
dot, or `""` if the last element has no dot. -/
def pathExt (p : String) : String := extFromRev p.data.reverse []

/-- The dot-dot backtracking step of the Go `path.Clean` lazybuf: given the
output buffer in reverse order, pop the last path element (the Go loop
`out.w--; for out.w > dotdot && out.index(out.w) != '/' { out.w-- }`). -/
def dotdotPop (dotdot : Nat) : List Char → List Char
  | [] => []
  | c :: rest => if dotdot < rest.length ∧ c ≠ '/' then dotdotPop dotdot rest else rest

/-- Main loop of Go `path.Clean`, processing the remaining input with the
output buffer kept in reverse order.  `rooted` records whether the original
path was absolute, `dotdot` the buffer index up to which `..` may not pop.
`fuel` only bounds the recursion; every iteration consumes at least one
input character, so `input length + 1` fuel is always sufficient. -/
def cleanLoop (rooted : Bool) : Nat → List Char → List Char → Nat → List Char
  | 0, _, out, _ => out
  | _ + 1, [], out, _ => out
  | fuel + 1, c :: rest, out, dotdot =>
    if c = '/' then
      cleanLoop rooted fuel rest out dotdot
    else if c = '.' ∧ (rest = [] ∨ rest.head? = some '/') then
      cleanLoop rooted fuel rest out dotdot
    else if c = '.' ∧ rest.head? = some '.' ∧
        (rest.tail = [] ∨ rest.tail.head? = some '/') then
      if dotdot < out.length then
        cleanLoop rooted fuel rest.tail (dotdotPop dotdot out) dotdot
      else if !rooted then
        let out1 := if 0 < out.length then '/' :: out else out
        let out2 := '.' :: '.' :: out1
        cleanLoop rooted fuel rest.tail out2 out2.length
      else
        cleanLoop rooted fuel rest.tail out dotdot
    else
      let out1 :=
        if (rooted ∧ out.length ≠ 1) ∨ (¬rooted ∧ out.length ≠ 0) then '/' :: out
        else out
      let seg := (c :: rest).takeWhile (fun x => x ≠ '/')
      cleanLoop rooted fuel ((c :: rest).dropWhile (fun x => x ≠ '/'))
        (seg.reverse ++ out1) dotdot

/-- Go `path.Clean`: lexical simplification of a slash-separated path
(collapse multiple slashes, drop `.` elements, resolve `..`). -/
def pathClean (p : String) : String :=
  if p = "" then "."
  else
    let l := p.data
    let rooted := l.head? = some '/'
    let out :=
      if rooted then cleanLoop rooted (l.length + 1) l.tail ['/'] 1
      else cleanLoop rooted (l.length + 1) l [] 0
    if out.length = 0 then "." else String.mk out.reverse

/-- Go `path.Join` restricted to the two-argument call sites in the source:
concatenate the non-empty elements with `/` and `Clean` the result; all
empty yields `""`. -/
def pathJoin (a b : String) : String :=
  if a.length + b.length = 0 then ""
  else if a = "" then pathClean b
  else if b = "" then pathClean (a ++ "/")
  else pathClean (a ++ "/" ++ b)

/-- Go `filepath.Base` on Unix: strip trailing slashes, then keep the last
path element; `""` gives `"."` and an all-slash path gives `"/"`. -/
def baseName (p : String) : String :=
  if p = "" then "."
  else
    let rev := p.data.reverse.dropWhile (fun c => c = '/')
    if rev = [] then "/"
    else String.mk (rev.takeWhile (fun c => c ≠ '/')).reverse

/-! ## IP parsing and subnet membership (Go `net` semantics)

`net.ParseIP` (as of Go ≥ 1.17, which delegates to `netip.ParseAddr`)
returns a 16-byte address or `nil`; we model an address as a `List Nat` of
byte values and `nil` as `none`.  Dotted-quad input yields the IPv4-mapped
16-byte form, exactly as `net.ParseIP` does. -/

/-- Value of one hex digit, or `none` for a non-hex character. -/
def hexDigitVal (c : Char) : Option Nat :=
  if '0' ≤ c ∧ c ≤ '9' then some (c.toNat - '0'.toNat)
  else if 'a' ≤ c ∧ c ≤ 'f' then some (c.toNat - 'a'.toNat + 10)
  else if 'A' ≤ c ∧ c ≤ 'F' then some (c.toNat - 'A'.toNat + 10)
  else none

/-- Field loop of Go `netip.parseIPv4`: remaining input, accumulated fields
in reverse, current field value, digits seen in the current field.  Rejects
leading zeros, fields above 255, empty fields, and anything but digits and
dots; exactly four fields are required. -/
def parseIPv4Aux : List Char → List Nat → Nat → Nat → Option (List Nat)
  | [], fields, val, _ =>
    if fields.length < 3 then none else some ((val :: fields).reverse)
  | c :: rest, fields, val, digLen =>
    if '0' ≤ c ∧ c ≤ '9' then
      if digLen = 1 ∧ val = 0 then none
      else
        let val2 := val * 10 + (c.toNat - '0'.toNat)
        if 255 < val2 then none
        else parseIPv4Aux rest fields val2 (digLen + 1)
    else if c = '.' then
      if digLen = 0 ∨ rest = [] then none
      else if fields.length = 3 then none
      else parseIPv4Aux rest (val :: fields) 0 0
    else none

/-- Go `netip.parseIPv4` on a char list: the four byte fields. -/
def parseIPv4Digits (s : List Char) : Option (List Nat) :=
  parseIPv4Aux s [] 0 0

/-- One hex group of Go `netip.parseIPv6`: scan hex digits (at most four),
returning the group value, the digit count and the unconsumed input. -/
def takeHexGroup : List Char → Nat → Nat → Option (Nat × Nat × List Char)
  | [], acc, off => some (acc, off, [])
  | c :: rest, acc, off =>
    match hexDigitVal c with
    | none => some (acc, off, c :: rest)
    | some v => if 3 < off then none else takeHexGroup rest (acc * 16 + v) (off + 1)

/-- Tail of Go `netip.parseIPv6`: expand the `::` ellipsis (recorded as a
byte position) to the missing zero bytes; exactly 16 bytes with no ellipsis
is returned unchanged, and an ellipsis that would expand to nothing is an
error. -/
def parseIPv6Finish (ip : List Nat) (ell : Option Nat) : Option (List Nat) :=
  if ip.length < 16 then
    match ell with
    | none => none
    | some e => some (ip.take e ++ List.replicate (16 - ip.length) 0 ++ ip.drop e)
  else
    match ell with
    | some _ => none
    | none => some ip

/-- Main loop of Go `netip.parseIPv6`: consume one colon-separated group per
iteration (two bytes), handling an embedded trailing IPv4 address and at
most one `::`.  A `%` zone or any other unexpected character fails, matching
`net.ParseIP`'s rejection of zoned addresses.  Each iteration adds two bytes
and the loop stops at 16, so fuel 20 is never exhausted. -/
def parseIPv6Aux : Nat → List Char → List Nat → Option Nat → Option (List Nat)
  | 0, _, _, _ => none
  | fuel + 1, s, ip, ell =>
    if 16 ≤ ip.length then
      if s.isEmpty then parseIPv6Finish ip ell else none
    else
      match takeHexGroup s 0 0 with
      | none => none
      | some (acc, off, rest) =>
        if off = 0 then none
        else if rest.head? = some '.' then
          if ell = none ∧ ip.length ≠ 12 then none
          else if 16 < ip.length + 4 then none
          else
            match parseIPv4Digits s with
            | some [a, b, c, d] => parseIPv6Finish (ip ++ [a, b, c, d]) ell
            | _ => none
        else
          let ip2 := ip ++ [acc / 256, acc % 256]
          match rest with
          | [] => parseIPv6Finish ip2 ell
          | ':' :: rest2 =>
            if rest2 = [] then none
            else if rest2.head? = some ':' then
              if ell ≠ none then none
              else if rest2.tail = [] then parseIPv6Finish ip2 (some ip2.length)
              else parseIPv6Aux fuel rest2.tail ip2 (some ip2.length)
            else parseIPv6Aux fuel rest2 ip2 ell
          | _ => none

/-- Go `netip.parseIPv6` on a char list, including the special case for a
leading `::`. -/
def parseIPv6Str (s : List Char) : Option (List Nat) :=
  if s.head? = some ':' ∧ s.tail.head? = some ':' then
    if s.tail.tail = [] then some (List.replicate 16 0)
    else parseIPv6Aux 20 s.tail.tail [] (some 0)
  else parseIPv6Aux 20 s [] none

/-- The IPv4-mapped 16-byte form `::ffff:a.b.c.d` that `net.ParseIP`
produces for dotted-quad input. -/
def v4InV6 (f : List Nat) : List Nat :=
  [0, 0, 0, 0, 0, 0, 0, 0, 0, 0, 255, 255] ++ f

/-- Go `net.ParseIP`: dispatch on the first `.`, `:` or `%` in the string
(`%` and absence of both mean not an IP); returns the 16-byte address. -/
def ParseIP (s : String) : Option (List Nat) :=
  match s.data.find? (fun c => c == '.' || c == ':' || c == '%') with
  | some '.' => (parseIPv4Digits s.data).map v4InV6
  | some ':' => parseIPv6Str s.data
  | _ => none

/-- Go `IP.To4`: a 4-byte address unchanged, a 16-byte IPv4-mapped address
reduced to its 4 bytes, anything else `nil`. -/
def ipTo4 (ip : List Nat) : Option (List Nat) :=
  if ip.length = 4 then some ip
  else if ip.length = 16 ∧ ip.take 12 = [0, 0, 0, 0, 0, 0, 0, 0, 0, 0, 255, 255] then
    some (ip.drop 12)
  else none

/-- Go `net.CIDRMask ones (8*k)` as a byte list of length `k`. -/
def cidrMaskBytes : Nat → Nat → List Nat
  | _, 0 => []
  | n, k + 1 =>
    if 8 ≤ n then 255 :: cidrMaskBytes (n - 8) k
    else (255 - 255 / 2 ^ n) :: cidrMaskBytes 0 k

/-- Bytewise `and` of an address with a mask (Go `IP.Mask`). -/
def maskIP (ip m : List Nat) : List Nat :=
  List.zipWith (fun a b => Nat.land a b) ip m

/-- Go `IPNet.Contains`: `nil` (`none`) is in no subnet; otherwise reduce
the address via `To4` when possible and compare under the mask, failing on a
length mismatch.  The subnet is assumed already in the normalized form
`net.ParseCIDR` produces (4-byte network/mask for dotted ranges, 16-byte for
IPv6 ranges). -/
def ipnetContains (subnet : List Nat × List Nat) (ip : Option (List Nat)) : Bool :=
  match ip with
  | none => false
  | some ip0 =>
    let ip1 := match ipTo4 ip0 with
      | some v => v
      | none => ip0
    if subnet.1.length ≠ ip1.length then false
    else maskIP ip1 subnet.2 = maskIP subnet.1 subnet.2

/-- Go `IP.IsLoopback`: `127.0.0.0/8` for IPv4, or equality with `::1`. -/
def ipIsLoopback (ip : Option (List Nat)) : Bool :=
  match ip with
  | none => false
  | some ip0 =>
    match ipTo4 ip0 with
    | some v => v.head? = some 127
    | none => ip0 = [0, 0, 0, 0, 0, 0, 0, 0, 0, 0, 0, 0, 0, 0, 0, 1]

/-- Go `IP.IsLinkLocalUnicast`: `169.254.0.0/16` for IPv4, `fe80::/10` for
IPv6. -/
def ipIsLinkLocalUnicast (ip : Option (List Nat)) : Bool :=
  match ip with
  | none => false
  | some ip0 =>
    match ipTo4 ip0 with
    | some v => v.head? = some 169 ∧ v.tail.head? = some 254
    | none =>
      ip0.length = 16 ∧ ip0.head? = some 0xfe ∧
        (ip0.tail.head?.getD 0).land 0xc0 = 0x80

/-- Go `IP.IsLinkLocalMulticast`: `224.0.0.0/24` for IPv4, `ff02::/16`-style
first-byte/flags test for IPv6. -/
def ipIsLinkLocalMulticast (ip : Option (List Nat)) : Bool :=
  match ip with
  | none => false
  | some ip0 =>
    match ipTo4 ip0 with
    | some v =>
      v.head? = some 224 ∧ v.tail.head? = some 0 ∧ v.tail.tail.head? = some 0
    | none =>
      ip0.length = 16 ∧ ip0.head? = some 0xff ∧
        (ip0.tail.head?.getD 0).land 0x0f = 0x02

/-- Modelled from the spec: `AllZeros`, the all-zeros address constant the
network handler and classifier compare against (declared outside
`eventhandler.go`). -/
def AllZeros : String := "0.0.0.0"

/-- Modelled from the spec: one of the two well-known cloud-infrastructure
metadata addresses excluded by the network handler (the Azure wire-server
address; constant declared outside `eventhandler.go`). -/
def AzureIPAddress : String := "168.63.129.16"

/-- Modelled from the spec: the second well-known cloud metadata address
excluded by the network handler (constant declared outside
`eventhandler.go`). -/
def MetadataIPAddress : String := "169.254.169.254"

/-- Modelled from the spec: `net.ParseCIDR classAPrivateAddressRange` for
the range `10.0.0.0/8` of §4.6 (the range constant is declared outside
`eventhandler.go`). -/
def classAPrivateSubnet : List Nat × List Nat :=
  (maskIP [10, 0, 0, 0] (cidrMaskBytes 8 4), cidrMaskBytes 8 4)

/-- Modelled from the spec: `net.ParseCIDR` of `172.16.0.0/12`. -/
def classBPrivateSubnet : List Nat × List Nat :=
  (maskIP [172, 16, 0, 0] (cidrMaskBytes 12 4), cidrMaskBytes 12 4)

/-- Modelled from the spec: `net.ParseCIDR` of `192.168.0.0/16`. -/
def classCPrivateSubnet : List Nat × List Nat :=
  (maskIP [192, 168, 0, 0] (cidrMaskBytes 16 4), cidrMaskBytes 16 4)

/-- Modelled from the spec: `net.ParseCIDR` of `127.0.0.0/8`. -/
def loopBackSubnet : List Nat × List Nat :=
  (maskIP [127, 0, 0, 0] (cidrMaskBytes 8 4), cidrMaskBytes 8 4)

/-- Modelled from the spec: `net.ParseCIDR` of `fe80::/10` (IPv6
link-local). -/
def ipv6LinkLocalSubnet : List Nat × List Nat :=
  (maskIP (0xfe :: 0x80 :: List.replicate 14 0) (cidrMaskBytes 10 16),
   cidrMaskBytes 10 16)

/-- Modelled from the spec: `net.ParseCIDR` of `fc00::/7` (IPv6
unique-local). -/
def ipv6LocalSubnet : List Nat × List Nat :=
  (maskIP (0xfc :: List.replicate 15 0) (cidrMaskBytes 7 16),
   cidrMaskBytes 7 16)

/-- Classifier `isPrivateIPAddress` from `eventhandler.go`: the all-zeros literal, any
of the six reserved subnets, or a loopback/link-local classification.  The
lazy, idempotent subnet-table initialization of the source collapses to the
constant subnet definitions above. -/
def isPrivateIPAddress (ipAddress : String) : Bool :=
  if ipAddress = AllZeros then true
  else
    let ip := ParseIP ipAddress
    ipnetContains classAPrivateSubnet ip ||
    ipnetContains classBPrivateSubnet ip ||
    ipnetContains classCPrivateSubnet ip ||
    ipnetContains loopBackSubnet ip ||
    ipnetContains ipv6LinkLocalSubnet ip ||
    ipnetContains ipv6LocalSubnet ip ||
    ipIsLoopback ip || ipIsLinkLocalUnicast ip || ipIsLinkLocalMulticast ip

/-! ## Data model -/

/-- The `Event` record delivered by the tracer (field shapes per §3/§6 of
the design; all category-specific payloads are strings except the process
argument vector). -/
structure Event where
  EventType : String
  Pid : String
  PPid : String
  Exe : String
  FileName : String
  Path : String
  Syscall : String
  Timestamp : String
  IPAddress : String
  Port : String
  ProcessArguments : List String
deriving DecidableEq, Repr

/-- The `Process` entry stored in the process table. -/
structure Process where
  PID : String
  PPid : String
  Exe : String
  Arguments : List String
deriving DecidableEq, Repr

/-- The `Tool` ancestry chain: executable basename, checksum, optional
parent link. -/
inductive Tool where
  | mk (Name : String) (SHA256 : String) (Parent : Option Tool)

/-- Decidable equality of tool chains (structural recursion through the
parent link). -/
def Tool.decEq : (a b : Tool) → Decidable (a = b)
  | .mk n1 s1 p1, .mk n2 s2 p2 =>
    have hp : Decidable (p1 = p2) :=
      match p1, p2 with
      | none, none => isTrue rfl
      | some t1, some t2 =>
        match Tool.decEq t1 t2 with
        | isTrue h => isTrue (by rw [h])
        | isFalse h => isFalse (fun hh => h (Option.some.inj hh))
      | none, some _ => isFalse (fun h => Option.noConfusion h)
      | some _, none => isFalse (fun h => Option.noConfusion h)
    match String.decEq n1 n2, String.decEq s1 s2, hp with
    | isTrue h1, isTrue h2, isTrue h3 => isTrue (by rw [h1, h2, h3])
    | isFalse h1, _, _ => isFalse (fun hh => h1 (by cases hh; rfl))
    | _, isFalse h2, _ => isFalse (fun hh => h2 (by cases hh; rfl))
    | _, _, isFalse h3 => isFalse (fun hh => h3 (by cases hh; rfl))

instance : DecidableEq Tool := Tool.decEq

/-- Name component of a `Tool`. -/
def Tool.name : Tool → String
  | .mk n _ _ => n

/-- Checksum component of a `Tool`. -/
def Tool.sha256 : Tool → String
  | .mk _ s _ => s

/-- Parent link of a `Tool`. -/
def Tool.parent : Tool → Option Tool
  | .mk _ _ p => p

/-- Association-list lookup modelling Go map indexing (`m[k]`, with the
`found` flag given by `Option`). -/
def mlookup {α : Type} : List (String × α) → String → Option α
  | [], _ => none
  | (k, v) :: rest, key => if key = k then some v else mlookup rest key

/-- The mutable state of the Go `EventHandler` struct: correlation
identifiers plus the three deduplication maps and the process table.
Go's `map[string]bool` sets become key lists. -/
structure EventHandler where
  CorrelationId : String
  Repo : String
  ProcessConnectionMap : List String
  ProcessFileMap : List String
  ProcessMap : List (String × Process)
  SourceCodeMap : List (String × List Event)
deriving DecidableEq, Repr

/-- Pure model of the external collaborators: the checksum file system
(`fs p = some h` when the executable at `p` is readable with digest `h`,
with `errMsg p` the `err.Error()` description otherwise), container
attribution, reverse DNS, and the two OS ancestry lookups
(`getParentProcessId` / `getProcessExe`, declared outside
`eventhandler.go` — modelled from the spec as fallible finite lookups
`ParentPidOf(pid) -> pid|error`, `ExecutablePathOf(pid) -> path|error`). -/
structure Env where
  fs : String → Option String
  errMsg : String → String
  containerOf : String → String
  reverseLookup : String → String
  osParentTable : List (String × Nat)
  osExeTable : List (String × String)

/-- One `sendFileEvent` call to the collector. -/
structure FileReport where
  correlationId : String
  repo : String
  fileType : String
  timestamp : String
  tool : Tool
deriving DecidableEq

/-- One `sendNetConnection` call to the collector. -/
structure NetReport where
  correlationId : String
  repo : String
  ip : String
  port : String
  reverseLookup : String
  resolved : String
  timestamp : String
  tool : Tool
deriving DecidableEq

/-! ## Checksum and tool-chain resolution -/

/-- Function `getProgramChecksum`: hex digest of the executable, or the error's
description (and a failure flag in place of the Go `error`) when the file
cannot be read. -/
def getProgramChecksum (env : Env) (p : String) : String × Bool :=
  match env.fs p with
  | some h => (h, true)
  | none => (env.errMsg p, false)

/-- Resolver `GetToolChain` from `eventhandler.go`, with the recursion made explicit
through fuel (`none` = fuel exhausted; the Go recursion carries no bound):
compute the checksum (ignoring the read error), then follow the process
table, falling back to the two OS lookups, and stop with no parent when the
parent pid is unknown to both. -/
def GetToolChain (env : Env) (pm : List (String × Process)) :
    Nat → String → String → Option Tool
  | 0, _, _ => none
  | fuel + 1, ppid, exe =>
    match mlookup pm ppid with
    | some parentProcess =>
      match GetToolChain env pm fuel parentProcess.PPid parentProcess.Exe with
      | none => none
      | some par =>
        some (Tool.mk (baseName exe) ((getProgramChecksum env exe).1) (some par))
    | none =>
      match mlookup env.osParentTable ppid with
      | none => some (Tool.mk (baseName exe) ((getProgramChecksum env exe).1) none)
      | some parentProcessId =>
        match mlookup env.osExeTable ppid with
        | none => some (Tool.mk (baseName exe) ((getProgramChecksum env exe).1) none)
        | some path =>
          match GetToolChain env pm fuel (toString parentProcessId) path with
          | none => none
          | some par =>
            some (Tool.mk (baseName exe) ((getProgramChecksum env exe).1) (some par))

/-! ## Handlers -/

/-- The three syscalls excluded from tamper tracking
(`isSyscallExcluded`). -/
def isSyscallExcluded (syscall : String) : Bool :=
  if syscall = "chmod" ∨ syscall = "unlink" ∨ syscall = "unlinkat" then true
  else false

/-- The recognized source-code extension list of `isSourceCodeFile`,
verbatim from the source (note the dotless `cpp`, `cs` and `py`
entries). -/
def sourceCodeExtensions : List String :=
  [".c", "cpp", "cs", ".go", ".java", ".js", ".php", "py", ".rb", ".rs",
   ".scala", ".sc", ".sh", ".ts"]

/-- Predicate `isSourceCodeFile`: the file's `path.Ext` occurs in the extension
list. -/
def isSourceCodeFile (fileName : String) : Bool :=
  let ext := pathExt fileName
  sourceCodeExtensions.any (fun extension => ext = extension)

/-- The first-write classification of `handleFileEvent` (lines 54–59):
dependency-manager paths with a `.js` suffix, else version-control object
stores, else unclassified (`""`). -/
def classifyFile (fileName : String) : String :=
  if strContainsSub fileName "/node_modules/" ∧ strEnds fileName ".js" then
    "Dependencies"
  else if strContainsSub fileName ".git/objects" then "Source Code"
  else ""

/-- The tamper log line `WriteAnnotation` receives (the
`fmt.Sprintf("Source code overwritten %s syscall: %s by %s", ...)` of line
83). -/
def tamperMessage (e : Event) : String :=
  "Source code overwritten " ++ e.FileName ++ " syscall: " ++ e.Syscall ++
    " by " ++ e.Exe

/-- Result of one `handleFileEvent` call: the updated handler state, the
event as left by the handler (the source normalizes `event.FileName` in
place), the `sendFileEvent` calls tagged with the emitting event's pid, the
tamper log lines, and whether the pipeline-completion sentinel fired. -/
structure FileOut where
  state : EventHandler
  event : Event
  reports : List (String × FileReport)
  tamperLogs : List String
  doneSignal : Bool

/-- Association-list insert-or-replace for `SourceCodeMap` assignment. -/
def mstore {α : Type} : List (String × α) → String → α → List (String × α)
  | [], key, v => [(key, v)]
  | (k, w) :: rest, key, v =>
    if key = k then (k, v) :: rest else (k, w) :: mstore rest key v

/-- Lines 39–41 of `handleFileEvent`: a non-absolute `event.FileName` is
overwritten in place with `path.Join(event.Path, event.FileName)`. -/
def fileNormalize (e0 : Event) : Event :=
  if strStarts e0.FileName "/" then e0
  else { e0 with FileName := pathJoin e0.Path e0.FileName }

/-- Lines 50–66 of `handleFileEvent`: once per pid, classify the path and,
when classified, resolve the tool chain and report a file event, then mark
the pid.  `fuel` feeds `GetToolChain` (whose Go recursion is unbounded); a
fuel-exhausted chain degrades to the zero `Tool`.  Returns the updated state
and the `sendFileEvent` calls tagged with the emitting pid. -/
def fileClassifyStep (env : Env) (h : EventHandler) (e : Event) (fuel : Nat) :
    EventHandler × List (String × FileReport) :=
  if e.Pid ∈ h.ProcessFileMap then (h, [])
  else if classifyFile e.FileName ≠ "" then
    ({ h with ProcessFileMap := e.Pid :: h.ProcessFileMap },
     [(e.Pid, ⟨h.CorrelationId, h.Repo, classifyFile e.FileName, e.Timestamp,
        (GetToolChain env h.ProcessMap fuel e.PPid e.Exe).getD
          (Tool.mk "" "" none)⟩)])
  else (h, [])

/-- Lines 68–86 of `handleFileEvent`: source-tamper tracking.  Record the
first write; afterwards, whenever some recorded write came from a different
pid, append the event and emit the tamper log line. -/
def fileTamperStep (h : EventHandler) (e : Event) : EventHandler × List String :=
  if isSourceCodeFile e.FileName = true ∧ isSyscallExcluded e.Syscall = false then
    match mlookup h.SourceCodeMap e.FileName with
    | none =>
      ({ h with SourceCodeMap := mstore h.SourceCodeMap e.FileName [e] }, [])
    | some writeEvents =>
      if writeEvents.any (fun w => w.Pid ≠ e.Pid) then
        ({ h with SourceCodeMap := mstore h.SourceCodeMap e.FileName (writeEvents ++ [e]) },
         [tamperMessage e])
      else (h, [])
  else (h, [])

/-- Handler `handleFileEvent` from `eventhandler.go`: normalize the path, check the
`post_event.json` sentinel, classify-and-report once per pid, then run
source-tamper tracking — the three blocks above executed in source
order under the file mutex. -/
def handleFileEvent (env : Env) (h : EventHandler) (e0 : Event) (fuel : Nat) :
    FileOut :=
  let e := fileNormalize e0
  let done := strContainsSub e.FileName "post_event.json"
  let c := fileClassifyStep env h e fuel
  let t := fileTamperStep c.1 e
  ⟨t.1, e, c.2, t.2, done⟩

/-- Handler `handleProcessEvent`: insert a `Process` for an unseen pid, otherwise do
nothing. -/
def handleProcessEvent (h : EventHandler) (e : Event) : EventHandler :=
  match mlookup h.ProcessMap e.Pid with
  | some _ => h
  | none =>
    { h with ProcessMap :=
        (e.Pid, ⟨e.Pid, e.PPid, e.Exe, e.ProcessArguments⟩) :: h.ProcessMap }

/-- The network deduplication key of line 132:
`fmt.Sprintf("%s%s%s", event.Pid, event.IPAddress, event.Port)`. -/
def cacheKeyOf (e : Event) : String := e.Pid ++ e.IPAddress ++ e.Port

/-- Handler `handleNetworkEvent`: drop private/reserved, `::1` and cloud-metadata
destinations; deduplicate on the concatenated key; otherwise resolve the
responsible tool (container image, else tool chain when the executable is
known) and report the connection. -/
def handleNetworkEvent (env : Env) (h : EventHandler) (e : Event)
    (fuel : Nat) : EventHandler × List NetReport :=
  if isPrivateIPAddress e.IPAddress = false ∧ e.IPAddress ≠ "::1" ∧
      e.IPAddress ≠ AzureIPAddress ∧ e.IPAddress ≠ MetadataIPAddress then
    let cacheKey := cacheKeyOf e
    if cacheKey ∈ h.ProcessConnectionMap then (h, [])
    else
      let image := env.containerOf e.Pid
      let tool :=
        if image = "" then
          if e.Exe ≠ "" then
            (GetToolChain env h.ProcessMap fuel e.PPid e.Exe).getD
              (Tool.mk "" "" none)
          else Tool.mk "" "" none
        else Tool.mk image image none
      let reverseLookUp := env.reverseLookup e.IPAddress
      ({ h with ProcessConnectionMap := cacheKey :: h.ProcessConnectionMap },
       [⟨h.CorrelationId, h.Repo, e.IPAddress, e.Port, reverseLookUp, "",
         e.Timestamp, tool⟩])
  else (h, [])

/-! ## Event-sequence folds -/

/-- Deliver a list of network events in order, collecting every
`sendNetConnection` call. -/
def runNet (env : Env) (h : EventHandler) (events : List Event) (fuel : Nat) :
    EventHandler × List NetReport :=
  match events with
  | [] => (h, [])
  | e :: rest =>
    let out := handleNetworkEvent env h e fuel
    let tail := runNet env out.1 rest fuel
    (tail.1, out.2 ++ tail.2)

/-- Deliver a list of file events in order, collecting the pid-tagged
`sendFileEvent` calls and the tamper log lines. -/
def runFile (env : Env) (h : EventHandler) (events : List Event)
    (fuel : Nat) : EventHandler × List (String × FileReport) × List String :=
  match events with
  | [] => (h, [], [])
  | e :: rest =>
    let out := handleFileEvent env h e fuel
    let tail := runFile env out.state rest fuel
    (tail.1, out.reports ++ tail.2.1, out.tamperLogs ++ tail.2.2)

/-! ## Ancestry step relation (for the termination analysis of
`GetToolChain`) -/

/-- One ancestry step as `GetToolChain` takes it: the process-table entry's
`(PPid, Exe)` when the pid is in the table, else the pair delivered by the
two OS lookups, else undefined (the recursion's base case). -/
def stepPid (env : Env) (pm : List (String × Process)) (p : String) :
    Option (String × String) :=
  match mlookup pm p with
  | some pr => some (pr.PPid, pr.Exe)
  | none =>
    match mlookup env.osParentTable p with
    | none => none
    | some pp =>
      match mlookup env.osExeTable p with
      | none => none
      | some exe => some (toString pp, exe)

/-- Iterated ancestry: the pid reached after `k` defined steps, `none` if
some step along the way is undefined. -/
def iterPid (env : Env) (pm : List (String × Process)) :
    Nat → String → Option String
  | 0, p => some p
  | k + 1, p =>
    match stepPid env pm p with
    | none => none
    | some (p2, _) => iterPid env pm k p2

/-- The pids on which an ancestry step can possibly be defined: keys of the
process table and of the OS parent table. -/
def domainPids (env : Env) (pm : List (String × Process)) : List String :=
  pm.map Prod.fst ++ env.osParentTable.map Prod.fst

/-! ## Concrete fixtures used by witnesses and counterexamples -/

/-- An environment in which every collaborator fails or answers empty. -/
def envNil : Env :=
  ⟨fun _ => none, fun p => "open " ++ p ++ ": no such file or directory",
   fun _ => "", fun _ => "", [], []⟩

/-- An empty handler state. -/
def ehEmpty : EventHandler := ⟨"corr-1", "owner/repo", [], [], [], []⟩

/-- A file-write event on one source file, parameterized by pid. -/
def srcWrite (pid : String) : Event :=
  ⟨"file", pid, "1", "/usr/bin/go", "/src/main.go", "", "write", "t0", "", "",
   []⟩

/-- A network event to `8.8.8.8:80` from pid `7` (empty executable, so tool
resolution is skipped as in the source's `event.Exe != ""` guard). -/
def netEvA : Event := ⟨"net", "7", "1", "", "", "", "", "t1", "8.8.8.8", "80", []⟩

/-- A network event whose distinct `(pid, ip, port)` tuple concatenates to
the same dedup key as `netEvA`'s. -/
def netEvB : Event :=
  ⟨"net", "78", "1", "", "", "", "", "t2", ".8.8.8", "80", []⟩

/-- A file event with a relative `FileName`, for the normalization
counterexample. -/
def relFileEv : Event :=
  ⟨"file", "300", "1", "/usr/bin/go", "main.go", "/work", "write", "t0", "",
   "", []⟩

/-! ## Helper lemmas -/

/-- On a read failure the checksum degrades to the error description. -/
theorem getProgramChecksum_fail (env : Env) (exe : String)
    (h : env.fs exe = none) :
    getProgramChecksum env exe = (env.errMsg exe, false) := by
  unfold getProgramChecksum
  rw [h]

/-! ## C10: dotless extension-list entries never match `path.Ext` -/

/-- Go `path.Ext` of any name ending in `".cpp"` is `".cpp"`. -/
theorem pathExt_append_cpp (s : String) : pathExt (s ++ ".cpp") = ".cpp" := by
  unfold pathExt
  rw [String.data_append s ".cpp",
    List.reverse_append s.data ('.' :: 'c' :: 'p' :: 'p' :: [])]
  rfl

/-- Go `path.Ext` of any name ending in `".cs"` is `".cs"`. -/
theorem pathExt_append_cs (s : String) : pathExt (s ++ ".cs") = ".cs" := by
  unfold pathExt
  rw [String.data_append s ".cs",
    List.reverse_append s.data ('.' :: 'c' :: 's' :: [])]
  rfl

/-- Go `path.Ext` of any name ending in `".py"` is `".py"`. -/
theorem pathExt_append_py (s : String) : pathExt (s ++ ".py") = ".py" := by
  unfold pathExt
  rw [String.data_append s ".py",
    List.reverse_append s.data ('.' :: 'p' :: 'y' :: [])]
  rfl

/-- C10: `isSourceCodeFile` returns `false` for every file name ending in
`".cpp"`, `".cs"` or `".py"`: the extension list stores those entries
without the leading dot while `path.Ext` always produces the dot-prefixed
extension, so writes to such files never enter tamper tracking. -/
theorem isSourceCodeFile_dotless_extensions (s : String) :
    isSourceCodeFile (s ++ ".cpp") = false ∧
    isSourceCodeFile (s ++ ".cs") = false ∧
    isSourceCodeFile (s ++ ".py") = false := by
  refine ⟨?_, ?_, ?_⟩
  · unfold isSourceCodeFile
    rw [pathExt_append_cpp]
    decide
  · unfold isSourceCodeFile
    rw [pathExt_append_cs]
    decide
  · unfold isSourceCodeFile
    rw [pathExt_append_py]
    decide

/-! ## C6: the network classifier on the spec's test vectors, and on
malformed addresses -/

/-- C6: `isPrivateIPAddress` accepts each address of the spec's private
set, rejects `8.8.8.8`, and classifies every unparseable address as
non-private instead of raising an error. -/
theorem isPrivateIPAddress_spec :
    (isPrivateIPAddress "10.1.2.3" = true ∧
     isPrivateIPAddress "172.16.0.5" = true ∧
     isPrivateIPAddress "192.168.1.1" = true ∧
     isPrivateIPAddress "127.0.0.1" = true ∧
     isPrivateIPAddress "::1" = true ∧
     isPrivateIPAddress "fe80::1" = true ∧
     isPrivateIPAddress "fc00::1" = true ∧
     isPrivateIPAddress "8.8.8.8" = false) ∧
    ∀ s : String, ParseIP s = none → isPrivateIPAddress s = false := by
  constructor
  · decide
  · intro s hparse
    have hz : s ≠ AllZeros := by
      intro he
      rw [he] at hparse
      exact absurd hparse (by decide)
    unfold isPrivateIPAddress
    rw [if_neg hz, hparse]
    rfl

/-- Witness for C6 at the concrete malformed address `"99.99..99"`. -/
theorem isPrivateIPAddress_spec_witness :
    ParseIP "99.99..99" = none ∧ isPrivateIPAddress "99.99..99" = false :=
  ⟨by decide, isPrivateIPAddress_spec.2 "99.99..99" (by decide)⟩

/-! ## C5: `GetToolChain` degrades gracefully instead of aborting -/

/-- C5: ancestry resolution never propagates an error.  (1) Whatever tool
it returns carries, when the executable is unreadable, the error's
description as its checksum; (2) when the parent pid is absent from the
process table and an OS lookup fails, it returns (with any positive fuel,
i.e. without recursing) a `Tool` whose `Parent` is `none`. -/
theorem getToolChain_graceful :
    (∀ (env : Env) (pm : List (String × Process)) (fuel : Nat)
        (ppid exe : String) (t : Tool),
        GetToolChain env pm fuel ppid exe = some t → env.fs exe = none →
        t.sha256 = env.errMsg exe) ∧
    (∀ (env : Env) (pm : List (String × Process)) (fuel : Nat)
        (ppid exe : String),
        mlookup pm ppid = none →
        (mlookup env.osParentTable ppid = none ∨
          mlookup env.osExeTable ppid = none) →
        GetToolChain env pm (fuel + 1) ppid exe =
          some (Tool.mk (baseName exe) ((getProgramChecksum env exe).1) none)) := by
  constructor
  · intro env pm fuel ppid exe t ht hfs
    cases fuel with
    | zero => exact absurd ht (by simp [GetToolChain])
    | succ n =>
      unfold GetToolChain at ht
      have hc : (getProgramChecksum env exe).1 = env.errMsg exe := by
        rw [getProgramChecksum_fail env exe hfs]
      split at ht
      · split at ht
        · exact absurd ht (by simp)
        · cases ht
          simp [Tool.sha256, hc]
      · split at ht
        · cases ht
          simp [Tool.sha256, hc]
        · split at ht
          · cases ht
            simp [Tool.sha256, hc]
          · split at ht
            · exact absurd ht (by simp)
            · cases ht
              simp [Tool.sha256, hc]
  · intro env pm fuel ppid exe hpm hfail
    unfold GetToolChain
    rw [hpm]
    rcases hfail with hpar | hexe
    · rw [hpar]
    · cases hpar : mlookup env.osParentTable ppid with
      | none => rfl
      | some pp => rw [hexe]

/-- Witness for C5: with every collaborator failing, resolving pid `9` for
the unreadable `/bin/gone` returns the parentless tool whose checksum is
the read error's description. -/
theorem getToolChain_graceful_witness :
    envNil.fs "/bin/gone" = none ∧
    mlookup ([] : List (String × Process)) "9" = none ∧
    GetToolChain envNil [] 1 "9" "/bin/gone" =
      some (Tool.mk "gone" "open /bin/gone: no such file or directory" none) ∧
    (Tool.mk "gone" "open /bin/gone: no such file or directory" none).sha256 =
      envNil.errMsg "/bin/gone" :=
  ⟨rfl, rfl,
   getToolChain_graceful.2 envNil [] 0 "9" "/bin/gone" rfl (Or.inl rfl),
   getToolChain_graceful.1 envNil [] 1 "9" "/bin/gone"
     (Tool.mk "gone" "open /bin/gone: no such file or directory" none)
     (by decide) rfl⟩

/-! ## C8: `handleProcessEvent` is idempotent and never overwrites -/

/-- C8: delivering the same process event twice leaves exactly the state of
the first delivery, and no delivery ever overwrites an existing process
table entry. -/
theorem handleProcessEvent_idempotent (h : EventHandler) (e : Event) :
    handleProcessEvent (handleProcessEvent h e) e = handleProcessEvent h e ∧
    ∀ (pid : String) (pr : Process),
      mlookup h.ProcessMap pid = some pr →
      mlookup (handleProcessEvent h e).ProcessMap pid = some pr := by
  constructor
  · unfold handleProcessEvent
    cases hm : mlookup h.ProcessMap e.Pid with
    | some pr0 => simp [hm]
    | none => simp [mlookup]
  · intro pid pr hpid
    unfold handleProcessEvent
    cases hm : mlookup h.ProcessMap e.Pid with
    | some pr0 => exact hpid
    | none =>
      simp only [mlookup]
      by_cases hpe : pid = e.Pid
      · rw [hpe] at hpid
        rw [hpid] at hm
        exact absurd hm (by simp)
      · rw [if_neg hpe]
        exact hpid

/-- Witness for C8 at a concrete state and event. -/
theorem handleProcessEvent_idempotent_witness :
    mlookup (handleProcessEvent ehEmpty relFileEv).ProcessMap "300" =
        some ⟨"300", "1", "/usr/bin/go", []⟩ ∧
    handleProcessEvent (handleProcessEvent (handleProcessEvent ehEmpty relFileEv) relFileEv) relFileEv =
      handleProcessEvent (handleProcessEvent ehEmpty relFileEv) relFileEv :=
  ⟨(handleProcessEvent_idempotent (handleProcessEvent ehEmpty relFileEv) relFileEv).2
      "300" ⟨"300", "1", "/usr/bin/go", []⟩ (by decide),
   (handleProcessEvent_idempotent (handleProcessEvent ehEmpty relFileEv) relFileEv).1⟩

/-! ## C4: handlers do not leave the event unmodified — `handleFileEvent`
normalizes `event.FileName` in place -/

/-- Counterexample to C4: on a file event with the relative name `main.go`
and working directory `/work`, `handleFileEvent` leaves the event with
`FileName = "/work/main.go"`, different from its value at delivery. -/
theorem handleFileEvent_mutates_fileName :
    (handleFileEvent envNil ehEmpty relFileEv 1).event.FileName = "/work/main.go" ∧
    relFileEv.FileName = "main.go" ∧
    (handleFileEvent envNil ehEmpty relFileEv 1).event.FileName ≠ relFileEv.FileName := by
  refine ⟨by decide, by decide, by decide⟩

/-- C4 amended: `handleFileEvent` mutates at most the `FileName` field of
its event — an event whose `FileName` is already absolute is returned
unchanged, a relative one is returned with `FileName` overwritten by
`path.Join(Path, FileName)`, and every other field is always preserved. -/
theorem handleFileEvent_event_frame (env : Env) (h : EventHandler)
    (e : Event) (fuel : Nat) :
    (strStarts e.FileName "/" = true →
      (handleFileEvent env h e fuel).event = e) ∧
    (strStarts e.FileName "/" = false →
      (handleFileEvent env h e fuel).event =
        { e with FileName := pathJoin e.Path e.FileName }) ∧
    (handleFileEvent env h e fuel).event.Pid = e.Pid ∧
    (handleFileEvent env h e fuel).event.PPid = e.PPid ∧
    (handleFileEvent env h e fuel).event.Exe = e.Exe ∧
    (handleFileEvent env h e fuel).event.Path = e.Path ∧
    (handleFileEvent env h e fuel).event.Syscall = e.Syscall ∧
    (handleFileEvent env h e fuel).event.Timestamp = e.Timestamp ∧
    (handleFileEvent env h e fuel).event.IPAddress = e.IPAddress ∧
    (handleFileEvent env h e fuel).event.Port = e.Port ∧
    (handleFileEvent env h e fuel).event.EventType = e.EventType ∧
    (handleFileEvent env h e fuel).event.ProcessArguments = e.ProcessArguments := by
  have hev : (handleFileEvent env h e fuel).event = fileNormalize e := rfl
  rw [hev]
  unfold fileNormalize
  cases hs : strStarts e.FileName "/" <;> simp [hs]

/-- Witness for C4 amended: an absolute-path event passes through
`handleFileEvent` unchanged. -/
theorem handleFileEvent_event_frame_witness :
    strStarts (srcWrite "100").FileName "/" = true ∧
    (handleFileEvent envNil ehEmpty (srcWrite "100") 1).event = srcWrite "100" :=
  ⟨by decide,
   (handleFileEvent_event_frame envNil ehEmpty (srcWrite "100") 1).1 (by decide)⟩

/-! ## C1: tamper tracking on the write sequence pid 100, 200, 100 -/

/-- Counterexample to C1: for the write sequence pid 100, 200, 100 on one
source file, the run emits two tamper log lines, not one — in particular
the third write (by the already-recorded pid 100) emits one, because a
recorded write by pid 200 differs from it. -/
theorem tamper_fires_on_third_write :
    (runFile envNil ehEmpty
        [srcWrite "100", srcWrite "200", srcWrite "100"] 1).2.2.length = 2 ∧
    (handleFileEvent envNil
        (runFile envNil ehEmpty [srcWrite "100", srcWrite "200"] 1).1
        (srcWrite "100") 1).tamperLogs =
      ["Source code overwritten /src/main.go syscall: write by /usr/bin/go"] := by
  refine ⟨by decide, by decide⟩

/-- C1 amended: the tamper annotation fires on every non-excluded write to
a recorded source file whose recorded history contains a write by a
different pid — once per such event, not once per distinct new writer.  For
the sequence pid 100, then 200, then 100 on `/src/main.go`, annotations
fire on the second AND on the third write (two in total). -/
theorem tamper_sequence_100_200_100 :
    (runFile envNil ehEmpty
        [srcWrite "100", srcWrite "200", srcWrite "100"] 1).2.2 =
      [tamperMessage (srcWrite "200"), tamperMessage (srcWrite "100")] ∧
    (handleFileEvent envNil ehEmpty (srcWrite "100") 1).tamperLogs = [] := by
  refine ⟨by decide, by decide⟩

/-! ## C9: the dedup key concatenation is not injective -/

/-- C9: the network dedup key concatenates pid, ip and port without a
separator, so the distinct tuples `("7", "8.8.8.8", "80")` and
`("78", ".8.8.8", "80")` share one key; after the first is reported, the
event carrying the second tuple is silently dropped: the run reports
exactly one connection, for ip `8.8.8.8`, and none for ip `.8.8.8`. -/
theorem net_dedup_key_collision :
    (netEvA.Pid, netEvA.IPAddress, netEvA.Port) ≠
      (netEvB.Pid, netEvB.IPAddress, netEvB.Port) ∧
    cacheKeyOf netEvA = cacheKeyOf netEvB ∧
    (runNet envNil ehEmpty [netEvA, netEvB] 1).2.map NetReport.ip = ["8.8.8.8"] ∧
    ((runNet envNil ehEmpty [netEvA, netEvB] 1).2.filter
        (fun r => r.ip = netEvB.IPAddress)).length = 0 := by
  refine ⟨by decide, by decide, by decide, by decide⟩

/-! ## C2: at most one network report per `(pid, ip, port)` tuple -/

/-- A network event whose dedup key is already recorded is dropped with the
state unchanged. -/
theorem handleNetworkEvent_seen (env : Env) (h : EventHandler) (e : Event)
    (fuel : Nat) (hk : cacheKeyOf e ∈ h.ProcessConnectionMap) :
    handleNetworkEvent env h e fuel = (h, []) := by
  unfold handleNetworkEvent
  split
  · rw [if_pos hk]
  · rfl

/-- Once a key is recorded, a whole run of events carrying that key reports
nothing and leaves the state unchanged. -/
theorem runNet_seen (env : Env) (h : EventHandler) (events : List Event)
    (fuel : Nat) (k : String) (hk : k ∈ h.ProcessConnectionMap)
    (hkeys : ∀ e ∈ events, cacheKeyOf e = k) :
    runNet env h events fuel = (h, []) := by
  induction events with
  | nil => rfl
  | cons e rest ih =>
    have he : cacheKeyOf e = k := hkeys e (by simp)
    have h1 : handleNetworkEvent env h e fuel = (h, []) :=
      handleNetworkEvent_seen env h e fuel (he ▸ hk)
    have h2 : runNet env h rest fuel = (h, []) :=
      ih (fun e2 hm => hkeys e2 (by simp [hm]))
    simp [runNet, h1, h2]

/-- A fresh, reportable network event records its key and emits one
report. -/
theorem handleNetworkEvent_new (env : Env) (h : EventHandler) (e : Event)
    (fuel : Nat)
    (hf : isPrivateIPAddress e.IPAddress = false ∧ e.IPAddress ≠ "::1" ∧
      e.IPAddress ≠ AzureIPAddress ∧ e.IPAddress ≠ MetadataIPAddress)
    (hk : cacheKeyOf e ∉ h.ProcessConnectionMap) :
    ∃ r, handleNetworkEvent env h e fuel =
      ({ h with ProcessConnectionMap :=
          cacheKeyOf e :: h.ProcessConnectionMap }, [r]) := by
  unfold handleNetworkEvent
  rw [if_pos hf, if_neg hk]
  exact ⟨_, rfl⟩

/-- A filtered (private/loopback/metadata) network event is dropped with
the state unchanged. -/
theorem handleNetworkEvent_filtered (env : Env) (h : EventHandler)
    (e : Event) (fuel : Nat)
    (hf : ¬ (isPrivateIPAddress e.IPAddress = false ∧ e.IPAddress ≠ "::1" ∧
      e.IPAddress ≠ AzureIPAddress ∧ e.IPAddress ≠ MetadataIPAddress)) :
    handleNetworkEvent env h e fuel = (h, []) := by
  unfold handleNetworkEvent
  rw [if_neg hf]

/-- C2: over any sequence of network events sharing one
`(pid, ip, port)` tuple, starting from any state, at most one
`sendNetConnection` call is made, however often the tuple recurs. -/
theorem net_dedup_at_most_one_report (env : Env) (h0 : EventHandler)
    (events : List Event) (fuel : Nat) (p ip q : String)
    (hsame : ∀ e ∈ events, e.Pid = p ∧ e.IPAddress = ip ∧ e.Port = q) :
    (runNet env h0 events fuel).2.length ≤ 1 := by
  induction events generalizing h0 with
  | nil => simp [runNet]
  | cons e rest ih =>
    obtain ⟨hp, hip, hq⟩ := hsame e (by simp)
    have hkey : cacheKeyOf e = p ++ ip ++ q := by
      unfold cacheKeyOf
      rw [hp, hip, hq]
    have hrestsame : ∀ e2 ∈ rest, e2.Pid = p ∧ e2.IPAddress = ip ∧ e2.Port = q :=
      fun e2 hm => hsame e2 (by simp [hm])
    by_cases hf : (isPrivateIPAddress e.IPAddress = false ∧ e.IPAddress ≠ "::1" ∧
        e.IPAddress ≠ AzureIPAddress ∧ e.IPAddress ≠ MetadataIPAddress)
    · by_cases hk : cacheKeyOf e ∈ h0.ProcessConnectionMap
      · have h1 := handleNetworkEvent_seen env h0 e fuel hk
        simp only [runNet, h1]
        exact ih h0 hrestsame
      · obtain ⟨r, h1⟩ := handleNetworkEvent_new env h0 e fuel hf hk
        have h2 : runNet env
            ({ h0 with ProcessConnectionMap :=
               cacheKeyOf e :: h0.ProcessConnectionMap }) rest fuel =
            ({ h0 with ProcessConnectionMap :=
               cacheKeyOf e :: h0.ProcessConnectionMap }, []) := by
          apply runNet_seen env _ rest fuel (cacheKeyOf e) (by simp)
          intro e2 hm
          obtain ⟨hp2, hip2, hq2⟩ := hrestsame e2 hm
          unfold cacheKeyOf
          rw [hp2, hip2, hq2, hp, hip, hq]
        simp [runNet, h1, h2]
    · have h1 := handleNetworkEvent_filtered env h0 e fuel hf
      simp only [runNet, h1]
      exact ih h0 hrestsame

/-- Witness for C2: three repetitions of the same `8.8.8.8:80` event from
pid `7` produce exactly one report. -/
theorem net_dedup_at_most_one_report_witness :
    (∀ e ∈ [netEvA, netEvA, netEvA],
      e.Pid = "7" ∧ e.IPAddress = "8.8.8.8" ∧ e.Port = "80") ∧
    (runNet envNil ehEmpty [netEvA, netEvA, netEvA] 1).2.length ≤ 1 ∧
    (runNet envNil ehEmpty [netEvA, netEvA, netEvA] 1).2.length = 1 :=
  ⟨by decide,
   net_dedup_at_most_one_report envNil ehEmpty [netEvA, netEvA, netEvA] 1
     "7" "8.8.8.8" "80" (by decide),
   by decide⟩

/-! ## C7: first-write classification and one report per pid -/

/-- Counterexample to C7 as stated: a path containing `".git/objects"` that
also matches the dependencies rule is classified `"Dependencies"`, not
`"Source Code"` — the `node_modules`/`.js` branch takes precedence in the
if/else-if chain. -/
theorem classify_git_objects_precedence :
    strContainsSub "/r/node_modules/.git/objects/x.js" ".git/objects" = true ∧
    classifyFile "/r/node_modules/.git/objects/x.js" = "Dependencies" ∧
    classifyFile "/r/node_modules/.git/objects/x.js" ≠ "Source Code" := by
  refine ⟨by decide, by decide, by decide⟩

/-- Normalization does not change the pid. -/
theorem fileNormalize_pid (e : Event) : (fileNormalize e).Pid = e.Pid := by
  unfold fileNormalize
  split <;> rfl

/-- Tamper tracking never touches `ProcessFileMap`. -/
theorem fileTamperStep_pfm (h : EventHandler) (e : Event) :
    (fileTamperStep h e).1.ProcessFileMap = h.ProcessFileMap := by
  unfold fileTamperStep
  split
  · split
    · rfl
    · split <;> rfl
  · rfl

/-- The classification step either does nothing, or (for an unmarked pid)
marks the pid and emits exactly one report tagged with it. -/
theorem fileClassifyStep_cases (env : Env) (h : EventHandler) (e : Event)
    (fuel : Nat) :
    fileClassifyStep env h e fuel = (h, []) ∨
    (∃ r, fileClassifyStep env h e fuel =
        ({ h with ProcessFileMap := e.Pid :: h.ProcessFileMap },
         [(e.Pid, r)]) ∧
      e.Pid ∉ h.ProcessFileMap) := by
  unfold fileClassifyStep
  by_cases hm : e.Pid ∈ h.ProcessFileMap
  · left
    rw [if_pos hm]
  · rw [if_neg hm]
    by_cases hc : classifyFile e.FileName ≠ ""
    · right
      refine ⟨⟨h.CorrelationId, h.Repo, classifyFile e.FileName, e.Timestamp,
        (GetToolChain env h.ProcessMap fuel e.PPid e.Exe).getD
          (Tool.mk "" "" none)⟩, ?_, hm⟩
      rw [if_pos hc]
    · left
      rw [if_neg hc]

/-- The state reached by `handleFileEvent` and the reports it emits, in
terms of the two steps. -/
theorem handleFileEvent_split (env : Env) (h : EventHandler) (e : Event)
    (fuel : Nat) :
    (handleFileEvent env h e fuel).state =
      (fileTamperStep (fileClassifyStep env h (fileNormalize e) fuel).1
        (fileNormalize e)).1 ∧
    (handleFileEvent env h e fuel).reports =
      (fileClassifyStep env h (fileNormalize e) fuel).2 := ⟨rfl, rfl⟩

/-- Handler `handleFileEvent` never removes a pid from `ProcessFileMap`. -/
theorem handleFileEvent_pfm_mono (env : Env) (h : EventHandler) (e : Event)
    (fuel : Nat) (pid : String) (hm : pid ∈ h.ProcessFileMap) :
    pid ∈ (handleFileEvent env h e fuel).state.ProcessFileMap := by
  rw [(handleFileEvent_split env h e fuel).1, fileTamperStep_pfm]
  rcases fileClassifyStep_cases env h (fileNormalize e) fuel with hc | ⟨r, hc, _⟩
  · rw [hc]
    exact hm
  · rw [hc]
    exact List.mem_cons_of_mem _ hm

/-- Once a pid is marked in `ProcessFileMap`, a whole run emits no report
tagged with it. -/
theorem runFile_marked_pid (env : Env) (events : List Event) (fuel : Nat)
    (pid : String) :
    ∀ h : EventHandler, pid ∈ h.ProcessFileMap →
      ((runFile env h events fuel).2.1.filter (fun r => r.1 = pid)).length = 0 := by
  induction events with
  | nil =>
    intro h _
    simp [runFile]
  | cons e rest ih =>
    intro h hm
    have htail := ih (handleFileEvent env h e fuel).state
      (handleFileEvent_pfm_mono env h e fuel pid hm)
    have hrep := (handleFileEvent_split env h e fuel).2
    rcases fileClassifyStep_cases env h (fileNormalize e) fuel with hc | ⟨r, hc, hnm⟩
    · have : (handleFileEvent env h e fuel).reports = [] := by
        rw [hrep, hc]
      simp [runFile, this, htail]
    · have hne : (fileNormalize e).Pid ≠ pid := fun heq => hnm (heq ▸ hm)
      have : (handleFileEvent env h e fuel).reports = [((fileNormalize e).Pid, r)] := by
        rw [hrep, hc]
      simp [runFile, this, htail, List.filter, hne]

/-- C7 amended: a normalized path under `/node_modules/` ending in `.js`
classifies as `"Dependencies"`; a path containing `".git/objects"`
classifies as `"Source Code"` unless the dependencies branch matched first;
and across any event sequence at most one file report is emitted per
originating pid. -/
theorem file_classification_and_one_report_per_pid :
    (∀ name : String, strContainsSub name "/node_modules/" = true →
        strEnds name ".js" = true → classifyFile name = "Dependencies") ∧
    (∀ name : String, strContainsSub name ".git/objects" = true →
        ¬ (strContainsSub name "/node_modules/" = true ∧
            strEnds name ".js" = true) →
        classifyFile name = "Source Code") ∧
    (∀ (env : Env) (h0 : EventHandler) (events : List Event) (fuel : Nat)
        (pid : String),
        ((runFile env h0 events fuel).2.1.filter
            (fun r => r.1 = pid)).length ≤ 1) := by
  refine ⟨?_, ?_, ?_⟩
  · intro name h1 h2
    unfold classifyFile
    rw [if_pos ⟨h1, h2⟩]
  · intro name h1 h2
    unfold classifyFile
    rw [if_neg h2, if_pos h1]
  · intro env h0 events fuel pid
    induction events generalizing h0 with
    | nil => simp [runFile]
    | cons e rest ih =>
      have hrep := (handleFileEvent_split env h0 e fuel).2
      rcases fileClassifyStep_cases env h0 (fileNormalize e) fuel with hc | ⟨r, hc, hnm⟩
      · have : (handleFileEvent env h0 e fuel).reports = [] := by
          rw [hrep, hc]
        simp only [runFile, this, List.nil_append]
        exact ih (handleFileEvent env h0 e fuel).state
      · have hhead : (handleFileEvent env h0 e fuel).reports =
            [((fileNormalize e).Pid, r)] := by
          rw [hrep, hc]
        by_cases hpe : (fileNormalize e).Pid = pid
        · have hmem : pid ∈ (handleFileEvent env h0 e fuel).state.ProcessFileMap := by
            rw [(handleFileEvent_split env h0 e fuel).1, fileTamperStep_pfm, hc]
            exact hpe ▸ List.mem_cons_self _ _
          have htail := runFile_marked_pid env rest fuel pid
            (handleFileEvent env h0 e fuel).state hmem
          simp [runFile, hhead, List.filter, hpe, htail]
        · have htail := ih (handleFileEvent env h0 e fuel).state
          simp [runFile, hhead, List.filter, hpe, htail]

/-- Witness for C7 amended, instantiating all three components
concretely: the two spec paths classify as stated, and a two-event run by
one pid yields exactly one report. -/
theorem file_classification_witness :
    classifyFile "/x/node_modules/foo.js" = "Dependencies" ∧
    classifyFile "/x/.git/objects/ab/cd" = "Source Code" ∧
    ((runFile envNil ehEmpty
        [{ srcWrite "9" with FileName := "/r/node_modules/a.js" },
         { srcWrite "9" with FileName := "/r/node_modules/b.js" }] 1).2.1.filter
        (fun r => r.1 = "9")).length ≤ 1 ∧
    ((runFile envNil ehEmpty
        [{ srcWrite "9" with FileName := "/r/node_modules/a.js" },
         { srcWrite "9" with FileName := "/r/node_modules/b.js" }] 1).2.1).length = 1 :=
  ⟨file_classification_and_one_report_per_pid.1 "/x/node_modules/foo.js"
     (by decide) (by decide),
   file_classification_and_one_report_per_pid.2.1 "/x/.git/objects/ab/cd"
     (by decide) (by decide),
   file_classification_and_one_report_per_pid.2.2 envNil ehEmpty
     [{ srcWrite "9" with FileName := "/r/node_modules/a.js" },
      { srcWrite "9" with FileName := "/r/node_modules/b.js" }] 1 "9",
   by decide⟩

/-! ## C3: termination of `GetToolChain` under acyclic ancestry -/

/-- Unfolding equation for `iterPid` at a successor. -/
theorem iterPid_succ (env : Env) (pm : List (String × Process)) (k : Nat)
    (p : String) :
    iterPid env pm (k + 1) p =
      match stepPid env pm p with
      | none => none
      | some (p2, _) => iterPid env pm k p2 := rfl

/-- Splitting an iteration count. -/
theorem iterPid_add (env : Env) (pm : List (String × Process)) :
    ∀ (a b : Nat) (p : String),
      iterPid env pm (a + b) p =
        (iterPid env pm a p).bind (iterPid env pm b) := by
  intro a
  induction a with
  | zero =>
    intro b p
    rw [Nat.zero_add]
    rfl
  | succ n ih =>
    intro b p
    rw [show n + 1 + b = (n + b) + 1 from by omega, iterPid_succ, iterPid_succ]
    cases hs : stepPid env pm p with
    | none => rfl
    | some pq =>
      obtain ⟨p2, x⟩ := pq
      exact ih b p2

/-- A pid with a defined ancestry step is a key of the process table or of
the OS parent table. -/
theorem mlookup_mem {α : Type} :
    ∀ (l : List (String × α)) (k : String) (v : α),
      mlookup l k = some v → k ∈ l.map Prod.fst := by
  intro l
  induction l with
  | nil =>
    intro k v h
    exact absurd h (by simp [mlookup])
  | cons kv rest ih =>
    intro k v h
    obtain ⟨k1, v1⟩ := kv
    unfold mlookup at h
    by_cases he : k = k1
    · simp [he]
    · rw [if_neg he] at h
      exact List.mem_cons_of_mem _ (ih k v h)

/-- A pid with a defined step lies in `domainPids`. -/
theorem stepPid_mem_domain (env : Env) (pm : List (String × Process))
    (p : String) (h : stepPid env pm p ≠ none) : p ∈ domainPids env pm := by
  unfold stepPid at h
  unfold domainPids
  cases hpm : mlookup pm p with
  | some pr => exact List.mem_append_left _ (mlookup_mem pm p pr hpm)
  | none =>
    rw [hpm] at h
    cases hos : mlookup env.osParentTable p with
    | none =>
      rw [hos] at h
      exact absurd rfl h
    | some pp =>
      exact List.mem_append_right _ (mlookup_mem env.osParentTable p pp hos)

/-- If `GetToolChain` exhausts its fuel, the ancestry step function is
still defined after `fuel` iterations from the starting pid. -/
theorem getToolChain_none_iter (env : Env) (pm : List (String × Process)) :
    ∀ (f : Nat) (p e : String), GetToolChain env pm f p e = none →
      ∃ q, iterPid env pm f p = some q := by
  intro f
  induction f with
  | zero =>
    intro p e _
    exact ⟨p, rfl⟩
  | succ n ih =>
    intro p e h
    unfold GetToolChain at h
    cases hpm : mlookup pm p with
    | some pr =>
      simp only [hpm] at h
      cases hrec : GetToolChain env pm n pr.PPid pr.Exe with
      | none =>
        rw [iterPid_succ]
        have hstep : stepPid env pm p = some (pr.PPid, pr.Exe) := by
          unfold stepPid
          rw [hpm]
        rw [hstep]
        exact ih pr.PPid pr.Exe hrec
      | some par =>
        rw [hrec] at h
        simp at h
    | none =>
      cases hos : mlookup env.osParentTable p with
      | none =>
        simp only [hpm, hos] at h
        exact absurd h (by simp)
      | some pp =>
        cases hoe : mlookup env.osExeTable p with
        | none =>
          simp only [hpm, hos, hoe] at h
          exact absurd h (by simp)
        | some exe2 =>
          simp only [hpm, hos, hoe] at h
          cases hrec : GetToolChain env pm n (toString pp) exe2 with
          | none =>
            rw [iterPid_succ]
            have hstep : stepPid env pm p = some (toString pp, exe2) := by
              unfold stepPid
              rw [hpm, hos, hoe]
            rw [hstep]
            exact ih (toString pp) exe2 hrec
          | some par =>
            rw [hrec] at h
            simp at h

/-- C3: `GetToolChain` terminates on every input whenever neither the
process table's parent links nor the OS-reported ancestry contain a cycle
(no pid reachable from itself in one or more ancestry steps): fuel equal to
the number of ancestry keys plus one is never exhausted, since an
exhausting run would visit more distinct pids than exist, forcing a
repetition and hence a cycle. -/
theorem getToolChain_terminates_of_acyclic (env : Env)
    (pm : List (String × Process))
    (hacyc : ∀ (p : String) (k : Nat), 0 < k → iterPid env pm k p ≠ some p)
    (ppid exe : String) :
    GetToolChain env pm ((domainPids env pm).length + 1) ppid exe ≠ none := by
  intro hnone
  obtain ⟨q, hq⟩ :=
    getToolChain_none_iter env pm ((domainPids env pm).length + 1) ppid exe hnone
  have hpre : ∀ j, j ≤ (domainPids env pm).length + 1 →
      ∃ pj, iterPid env pm j ppid = some pj := by
    intro j hj
    rw [show (domainPids env pm).length + 1 = j + ((domainPids env pm).length + 1 - j)
      from by omega, iterPid_add] at hq
    cases hij : iterPid env pm j ppid with
    | none =>
      rw [hij] at hq
      exact absurd hq (by simp)
    | some pj => exact ⟨pj, rfl⟩
  set N := (domainPids env pm).length + 1 with hN
  have hf : ∀ j : Fin N, iterPid env pm j.val ppid =
      some ((iterPid env pm j.val ppid).getD "") := by
    intro j
    obtain ⟨pj, hpj⟩ := hpre j.val (Nat.le_of_lt j.isLt)
    rw [hpj]
    rfl
  have hstepdef : ∀ j : Fin N,
      stepPid env pm ((iterPid env pm j.val ppid).getD "") ≠ none := by
    intro j hnone2
    obtain ⟨pj1, hpj1⟩ := hpre (j.val + 1) j.isLt
    rw [iterPid_add env pm j.val 1 ppid, hf j] at hpj1
    have h2 : (iterPid env pm 1 ((iterPid env pm j.val ppid).getD "")) = some pj1 := hpj1
    rw [show (1 : Nat) = 0 + 1 from rfl, iterPid_succ, hnone2] at h2
    simp at h2
  have hmaps : ∀ j : Fin N,
      (iterPid env pm j.val ppid).getD "" ∈ (domainPids env pm).toFinset := by
    intro j
    exact List.mem_toFinset.mpr
      (stepPid_mem_domain env pm _ (hstepdef j))
  have hcard : (domainPids env pm).toFinset.card < (Finset.univ : Finset (Fin N)).card := by
    rw [Finset.card_univ, Fintype.card_fin]
    exact Nat.lt_of_le_of_lt (List.toFinset_card_le (domainPids env pm))
      (by omega)
  obtain ⟨i0, _, j0, _, hij, heq⟩ :=
    Finset.exists_ne_map_eq_of_card_lt_of_maps_to hcard
      (fun j _ => hmaps j)
  have main : ∀ (i j : Fin N), i.val < j.val →
      (iterPid env pm i.val ppid).getD "" = (iterPid env pm j.val ppid).getD "" →
      False := by
    intro i j hlt he
    obtain ⟨pi, hpi⟩ := hpre i.val (Nat.le_of_lt i.isLt)
    obtain ⟨pj, hpj⟩ := hpre j.val (Nat.le_of_lt j.isLt)
    have hpi2 : (iterPid env pm i.val ppid).getD "" = pi := by
      rw [hpi]
      rfl
    have hpj2 : (iterPid env pm j.val ppid).getD "" = pj := by
      rw [hpj]
      rfl
    have hpp : pi = pj := by
      rw [← hpi2, he, hpj2]
    have hsplit : iterPid env pm (i.val + (j.val - i.val)) ppid =
        iterPid env pm (j.val - i.val) pi := by
      rw [iterPid_add, hpi]
      rfl
    have hcycle : iterPid env pm (j.val - i.val) pi = some pi := by
      rw [← hsplit, show i.val + (j.val - i.val) = j.val from by omega, hpj, hpp]
    exact hacyc pi (j.val - i.val) (by omega) hcycle
  rcases Nat.lt_or_ge i0.val j0.val with hlt | hge
  · exact main i0 j0 hlt heq
  · rcases Nat.lt_or_ge j0.val i0.val with hlt2 | hge2
    · exact main j0 i0 hlt2 heq.symm
    · exact hij (Fin.val_injective (Nat.le_antisymm hge2 hge))

/-- Witness for C3: with an empty process table and failing OS lookups the
ancestry is trivially acyclic, and resolution with the prescribed fuel
succeeds. -/
theorem getToolChain_terminates_witness :
    (∀ (p : String) (k : Nat), 0 < k → iterPid envNil [] k p ≠ some p) ∧
    GetToolChain envNil [] ((domainPids envNil []).length + 1) "1" "/bin/sh" ≠
      none :=
  have hacyc : ∀ (p : String) (k : Nat), 0 < k →
      iterPid envNil [] k p ≠ some p := by
    intro p k hk
    cases k with
    | zero => omega
    | succ n =>
      rw [iterPid_succ, show stepPid envNil [] p = none from rfl]
      simp
  ⟨hacyc, getToolChain_terminates_of_acyclic envNil [] hacyc "1" "/bin/sh"⟩

/-- Witness for C10 at the concrete base name `"foo"`. -/
theorem isSourceCodeFile_dotless_extensions_witness :
    isSourceCodeFile ("foo" ++ ".cpp") = false ∧
    isSourceCodeFile ("foo" ++ ".cs") = false ∧
    isSourceCodeFile ("foo" ++ ".py") = false :=
  isSourceCodeFile_dotless_extensions "foo"

end Agent
